import Mathlib

set_option linter.unusedVariables false

/-!
Shallow embedding of the LuminaChain wallet core (wallet.cpp, transaction.cpp,
network sync implementation) for checking the specification claims.

Modelling conventions:
* C++ double amounts are modelled as rationals; the arithmetic performed by the
  source on balances and progress values is exact field arithmetic.
* Randomly generated values (transaction ids, timestamps) and simulated network
  responses are taken as explicit parameters of the embedded operations, so that
  properties can quantify over them.
* Functions returning bool plus a logged error message are embedded as functions
  returning an explicit result value, one constructor per source branch.
* std::map String double is embedded as an association list ordered by key,
  with mapFind embedding map find and mapSet embedding insertion or update
  through operator[].
-/

namespace Lumina

/-- Status of a transaction, from the TransactionStatus enum. -/
inductive TransactionStatus
  | pending
  | confirmed
  | failed
deriving DecidableEq, Repr

/-- A transaction, from the Transaction class fields. The signature field is the
empty string until the transaction is signed, matching the default-constructed
std string member. -/
structure Transaction where
  id : String
  fromAddress : String
  toAddress : String
  amount : ℚ
  tokenSymbol : String
  timestamp : Int
  status : TransactionStatus
  signature : String
deriving DecidableEq, Repr

/-- Transaction constructor: stores the fields, sets status PENDING and leaves
the signature empty. The randomly generated id and the wall-clock timestamp are
taken as parameters. -/
def Transaction.create (id fromAddress toAddress : String) (amount : ℚ)
    (tokenSymbol : String) (timestamp : Int) : Transaction :=
  { id := id
    fromAddress := fromAddress
    toAddress := toAddress
    amount := amount
    tokenSymbol := tokenSymbol
    timestamp := timestamp
    status := TransactionStatus.pending
    signature := "" }

/-- Transaction setStatus: assigns the given status unconditionally (the source
performs no check of the current status before assigning). -/
def Transaction.setStatus (t : Transaction) (status : TransactionStatus) : Transaction :=
  { t with status := status }

/-- Transaction sign: sets the signature to the string SIGNATURE_ followed by the
transaction id and returns true. The private key argument is ignored by the
source body. -/
def Transaction.sign (t : Transaction) (privateKey : String) : Bool × Transaction :=
  (true, { t with signature := "SIGNATURE_" ++ t.id })

/-- Transaction verifySignature: returns true exactly when the stored signature
is non-empty and its first ten characters are SIGNATURE_ (substr(0, 10) of a
shorter string is the whole string, which the character-list take also
yields). -/
def Transaction.verifySignature (t : Transaction) : Bool :=
  !t.signature.toList.isEmpty && (t.signature.toList.take 10 == "SIGNATURE_".toList)

/-- Association-list embedding of std map find: the value stored at the first
entry with the given key, if any. -/
def mapFind (m : List (String × ℚ)) (k : String) : Option ℚ :=
  match m with
  | [] => none
  | (k', v) :: rest => if k = k' then some v else mapFind rest k

/-- Association-list embedding of assignment through std map operator[]: insert
the key at its ordered position, or replace the value of an existing entry. -/
def mapSet (m : List (String × ℚ)) (k : String) (v : ℚ) : List (String × ℚ) :=
  match m with
  | [] => [(k, v)]
  | (k', v') :: rest =>
    if k < k' then (k, v) :: (k', v') :: rest
    else if k = k' then (k, v) :: rest
    else (k', v') :: mapSet rest k v

/-- The wallet state, from the Wallet class members. -/
structure Wallet where
  walletPath : String
  mainAddress : String
  balances : List (String × ℚ)
  transactions : List Transaction
  isInitialized : Bool
  isSynchronized : Bool
deriving DecidableEq, Repr

/-- Wallet getBalance: the stored balance of the token, or zero if the token is
unknown. -/
def getBalance (w : Wallet) (tokenSymbol : String) : ℚ :=
  match mapFind w.balances tokenSymbol with
  | some v => v
  | none => 0

/-- Result of Wallet transfer, one constructor per branch of the source: the
bool return value together with the error log message that distinguishes the
failing branches. -/
inductive TransferResult
  | success
  | notInitialized
  | insufficientBalance
deriving DecidableEq, Repr

/-- Wallet transfer: fails when the wallet is uninitialized; fails when the
stored balance of the token is below the amount; otherwise subtracts the amount
from the balance and appends a new pending transaction. The source performs no
check on the sign of the amount. The id and timestamp of the created
transaction are parameters (randomness and wall clock). -/
def transfer (w : Wallet) (toAddress : String) (amount : ℚ) (tokenSymbol : String)
    (txId : String) (timestamp : Int) : TransferResult × Wallet :=
  if w.isInitialized = false then
    (TransferResult.notInitialized, w)
  else
    let balance := getBalance w tokenSymbol
    if balance < amount then
      (TransferResult.insufficientBalance, w)
    else
      let tx := Transaction.create txId w.mainAddress toAddress amount tokenSymbol timestamp
      (TransferResult.success,
        { w with
          balances := mapSet w.balances tokenSymbol (balance - amount)
          transactions := w.transactions ++ [tx] })

/-- The hard-coded seed phrase returned by Wallet getSeedPhrase on an
initialized wallet. -/
def fixedSeedPhrase : String :=
  "abandon ability able about above absent absorb abstract absurd abuse access accident"

/-- Wallet getSeedPhrase: returns the empty string (with a not-initialized error
log) when the wallet is uninitialized, and otherwise returns the hard-coded
seed phrase. The source body never reads the password argument. -/
def getSeedPhrase (w : Wallet) (password : String) : String :=
  if w.isInitialized = false then "" else fixedSeedPhrase

/-- Accumulating scan over the characters of a phrase: collects maximal runs of
non-whitespace characters, as istringstream extraction does. The first argument
is the current partially read word, in reverse. -/
def wordsAux : List Char → List Char → List String
  | acc, [] => if acc.isEmpty then [] else [String.mk acc.reverse]
  | acc, c :: rest =>
    if c.isWhitespace then
      if acc.isEmpty then wordsAux [] rest
      else String.mk acc.reverse :: wordsAux [] rest
    else wordsAux (c :: acc) rest

/-- Whitespace splitting as performed by istringstream extraction: the maximal
runs of non-whitespace characters, in order. -/
def splitWords (s : String) : List String :=
  wordsAux [] s.toList

/-- Result of Wallet recoverFromSeed, one constructor per branch of the
source. -/
inductive RecoverResult
  | success
  | alreadyInitialized
  | invalidSeedPhrase
deriving DecidableEq, Repr

/-- Wallet recoverFromSeed: fails if already initialized; fails if the phrase
does not split into exactly twelve whitespace-separated words; otherwise sets
the placeholder address, sets the LMT balance to zero, and marks the wallet
initialized and unsynchronized. The source never checks the words against the
dictionary (the check is an unimplemented TODO), and the final save to disk is
modelled as succeeding. -/
def recoverFromSeed (w : Wallet) (seedPhrase : String) : RecoverResult × Wallet :=
  if w.isInitialized then
    (RecoverResult.alreadyInitialized, w)
  else
    let words := splitWords seedPhrase
    if words.length ≠ 12 then
      (RecoverResult.invalidSeedPhrase, w)
    else
      (RecoverResult.success,
        { w with
          mainAddress := "LMT1234567890ABCDEFGHIJKLMNOPQRSTUVWXYZ"
          balances := mapSet w.balances "LMT" 0
          isInitialized := true
          isSynchronized := false })

/-- Splitting of a character list at the first occurrence of a character:
returns the part before and the part after the occurrence, or none when the
character does not occur. This is the common core of std getline (splitting
the stream at a newline) and of std string find for a colon. -/
def splitAtChar (c : Char) : List Char → Option (List Char × List Char)
  | [] => none
  | x :: rest =>
    if x = c then some ([], rest)
    else
      match splitAtChar c rest with
      | none => none
      | some (a, b) => some (x :: a, b)

/-- std getline on a character stream: fails at end of input; otherwise reads
up to the first newline (consuming it) or to the end of the input. -/
def getlineM (content : List Char) : Option (List Char × List Char) :=
  match content with
  | [] => none
  | x :: t =>
    match splitAtChar '\n' (x :: t) with
    | some (line, rest) => some (line, rest)
    | none => some (x :: t, [])

/-- The body of the Wallet loadWallet line loop, after the header line has been
consumed: for each line, an ADDRESS-prefixed line replaces the main address, a
BALANCE-prefixed line containing a further colon stores the parsed amount under
the token between the two colons (a std stod failure there is an exception that
aborts the whole load with result false), and any other line is ignored. The
parseA parameter is the numeric parser modelling std stod on the amount text.
The loop is realized with an explicit iteration bound; since every consumed
line removes at least one character from the content, a bound exceeding the
content length is never exhausted. -/
def processLinesAux (parseA : String → Option ℚ) :
    Nat → Wallet → List Char → Bool × Wallet
  | 0, w, _ => (true, w)
  | fuel + 1, w, content =>
    match getlineM content with
    | none => (true, w)
    | some (line, rest) =>
      if line.take 8 = "ADDRESS:".toList then
        processLinesAux parseA fuel { w with mainAddress := String.mk (line.drop 8) } rest
      else if line.take 8 = "BALANCE:".toList then
        match splitAtChar ':' (line.drop 8) with
        | none => processLinesAux parseA fuel w rest
        | some (tok, amt) =>
          match parseA (String.mk amt) with
          | none => (false, w)
          | some v =>
            processLinesAux parseA fuel
              { w with balances := mapSet w.balances (String.mk tok) v } rest
      else
        processLinesAux parseA fuel w rest

/-- The loadWallet line loop at its sufficient iteration bound. -/
def processLines (parseA : String → Option ℚ) (w : Wallet) (content : List Char) :
    Bool × Wallet :=
  processLinesAux parseA (content.length + 1) w content

/-- Wallet loadWallet: fails if the first line of the file is not the fixed
header, and otherwise processes the remaining lines. The file content is the
character stream read from the wallet path. -/
def loadWallet (parseA : String → Option ℚ) (w : Wallet) (content : List Char) : Bool × Wallet :=
  match getlineM content with
  | none => (false, w)
  | some (line, rest) =>
    if line = "LUMINA_WALLET_DATA".toList then processLines parseA w rest
    else (false, w)

/-- The balance section written by Wallet saveWallet: one BALANCE line per
stored balance, in the iteration order of the balance map, each ended by a
newline. The printA parameter is the numeric rendering modelling the stream
output of a double. -/
def balanceLines (printA : ℚ → String) : List (String × ℚ) → List Char
  | [] => []
  | p :: rest =>
    "BALANCE:".toList ++ p.1.toList ++ ':' :: (printA p.2).toList ++ '\n' ::
      balanceLines printA rest

/-- Wallet saveWallet: the character stream written to the wallet path - the
fixed header line, the ADDRESS line, and one BALANCE line per stored
balance. -/
def saveContent (printA : ℚ → String) (w : Wallet) : List Char :=
  "LUMINA_WALLET_DATA".toList ++ '\n' ::
    ("ADDRESS:".toList ++ w.mainAddress.toList ++ '\n' :: balanceLines printA w.balances)

/-- The wallet state built by the Wallet constructor before it attempts to load
the wallet file: empty address, no balances, no transactions, uninitialized. -/
def freshWallet (walletPath : String) : Wallet :=
  { walletPath := walletPath
    mainAddress := ""
    balances := []
    transactions := []
    isInitialized := false
    isSynchronized := false }

/-- A concrete numeric rendering for amounts, used to instantiate the
persistence round trip on integer-valued balances: the integer numerator
printed in base ten. -/
def printAmountInt (q : ℚ) : String := toString q.num

/-- The maximal leading run of base-ten digits of a character list, together
with the remainder. -/
def takeDigits : List Char → List Char × List Char
  | [] => ([], [])
  | c :: rest =>
    if '0' ≤ c ∧ c ≤ '9' then
      let r := takeDigits rest
      (c :: r.1, r.2)
    else ([], c :: rest)

/-- The numeric value of a base-ten digit run. -/
def digitsToNat (acc : Nat) : List Char → Nat
  | [] => acc
  | c :: rest => digitsToNat (acc * 10 + (c.toNat - '0'.toNat)) rest

/-- The value of the maximal leading digit run, or none when there is no
leading digit. -/
def parseDigits (cs : List Char) : Option Nat :=
  match takeDigits cs with
  | ([], _) => none
  | (d, _) => some (digitsToNat 0 d)

/-- A concrete numeric parser for amounts, matching std stod on integer amount
texts: std stod converts the longest valid numeric leading run and throws when
there is none, which on texts free of fractional and exponent syntax is the
optionally negated value of the leading digit run. -/
def parseAmountInt (s : String) : Option ℚ :=
  match s.toList with
  | '-' :: rest => Option.map (fun n => -((n : Nat) : ℚ)) (parseDigits rest)
  | cs => Option.map (fun n => ((n : Nat) : ℚ)) (parseDigits cs)

/-- Status of the network synchronization engine, from the SyncStatus enum. -/
inductive SyncStatus
  | notSynced
  | syncing
  | synced
deriving DecidableEq, Repr

/-- State of the NetworkSync engine, from its members. The presence of a stored
progress callback is modelled by the boolean hasCallback; each invocation of
the callback is recorded as a progress-message event in the returned event
list. -/
structure SyncState where
  walletAddress : String
  networkEndpoint : String
  status : SyncStatus
  progress : ℚ
  latestBlockHeight : Nat
  currentBlockHeight : Nat
  isSyncing : Bool
  hasCallback : Bool
deriving DecidableEq, Repr

/-- An invocation of the progress callback: the progress value and the message
passed to it. -/
abbrev SyncEvent := ℚ × String

/-- The NetworkSync constructor state: NOT_SYNCED, zero progress and heights,
not syncing, no callback stored. -/
def initialSyncState (walletAddress networkEndpoint : String) : SyncState :=
  { walletAddress := walletAddress
    networkEndpoint := networkEndpoint
    status := SyncStatus.notSynced
    progress := 0
    latestBlockHeight := 0
    currentBlockHeight := 0
    isSyncing := false
    hasCallback := false }

/-- The fixed batch size used by the synchronization loop. -/
def batchSize : Nat := 100

/-- NetworkSync processBlocks: records the batch end as the current height,
recomputes progress as current over latest when the latest height is positive,
and invokes the callback with the progress and a processed-up-to message. The
fromHeight argument is never read by the source body. -/
def processBlocks (s : SyncState) (fromHeight toHeight : Nat) : SyncState × List SyncEvent :=
  let newProgress :=
    if 0 < s.latestBlockHeight then (toHeight : ℚ) / (s.latestBlockHeight : ℚ) else s.progress
  ({ s with currentBlockHeight := toHeight, progress := newProgress },
    if s.hasCallback then [(newProgress, "Processed blocks up to " ++ toString toHeight)] else [])

/-- NetworkSync updateProgress: stores the progress, invokes the callback, and
when the progress has reached one sets the status to SYNCED and clears the
syncing flag. -/
def updateProgress (s : SyncState) (progress : ℚ) (message : String) : SyncState × List SyncEvent :=
  let events := if s.hasCallback then [(progress, message)] else []
  if 1 ≤ progress then
    ({ s with progress := progress, status := SyncStatus.synced, isSyncing := false }, events)
  else
    ({ s with progress := progress }, events)

/-- The batch loop of NetworkSync simulateSync: while the loop height is below
the latest height, process the batch ending at min (height + batchSize) latest,
then stop early if the syncing flag was cleared. The fuel argument bounds the
number of iterations; since the height grows by batchSize per iteration, fuel
equal to the latest height always suffices. Returns the final state, the
callback events, and the trace of processBlocks invocations. -/
def simulateSyncLoop : Nat → SyncState → Nat → SyncState × List SyncEvent × List (Nat × Nat)
  | 0, s, _ => (s, [], [])
  | fuel + 1, s, height =>
    if height < s.latestBlockHeight then
      let toHeight := min (height + batchSize) s.latestBlockHeight
      let p := processBlocks s height toHeight
      if p.1.isSyncing = false then
        (p.1, p.2, [(height, toHeight)])
      else
        let r := simulateSyncLoop fuel p.1 (height + batchSize)
        (r.1, p.2 ++ r.2.1, (height, toHeight) :: r.2.2)
    else
      (s, [], [])

/-- NetworkSync simulateSync: resets the current height to zero, runs the batch
loop from height zero, and if the loop was not cancelled and the current height
reached the latest height, reports completion through updateProgress with
progress one. -/
def simulateSync (s : SyncState) : SyncState × List SyncEvent × List (Nat × Nat) :=
  let s0 := { s with currentBlockHeight := 0 }
  let r := simulateSyncLoop s0.latestBlockHeight s0 0
  if r.1.isSyncing && decide (r.1.latestBlockHeight ≤ r.1.currentBlockHeight) then
    let u := updateProgress r.1 1 "Synchronization completed"
    (u.1, r.2.1 ++ u.2, r.2.2)
  else
    r

/-- NetworkSync startSync: fails if a synchronization is already in progress;
otherwise stores the callback when one is provided, connects (the source
simulation always succeeds), fetches the latest block height (the simulated
network response is the fetchedHeight parameter; the source hard-codes the
simulated value), sets the status to SYNCING, and runs the synchronization
simulation. -/
def startSync (s : SyncState) (callbackProvided : Bool) (fetchedHeight : Nat) :
    Bool × SyncState × List SyncEvent × List (Nat × Nat) :=
  if s.isSyncing then
    (false, s, [], [])
  else
    let s1 := if callbackProvided then { s with hasCallback := true } else s
    let s2 := { s1 with latestBlockHeight := fetchedHeight }
    let s3 := { s2 with status := SyncStatus.syncing, isSyncing := true }
    let r := simulateSync s3
    (true, r.1, r.2.1, r.2.2)

/-- The SEED_WORDS dictionary from which seed phrases are generated. -/
def seedWords : List String :=
  ["abandon", "ability", "able", "about", "above", "absent", "absorb", "abstract", "absurd",
   "abuse", "access", "accident", "account", "accuse", "achieve", "acid", "acoustic", "acquire",
   "across", "act", "action", "actor", "actress", "actual", "adapt", "add", "addict", "address",
   "adjust", "admit", "adult", "advance", "advice", "aerobic", "affair", "afford", "afraid",
   "again", "age", "agent", "agree", "ahead", "aim", "air", "airport", "aisle", "alarm", "album",
   "alcohol", "alert", "alien", "all", "alley", "allow", "almost", "alone", "alpha", "already",
   "also", "alter", "always", "amateur", "amazing", "among", "amount", "amused", "analyst",
   "anchor", "ancient", "anger", "angle", "angry", "animal", "ankle", "announce", "annual",
   "another", "answer", "antenna", "antique", "anxiety", "any", "apart", "apology", "appear",
   "apple", "approve", "april", "arch", "arctic", "area", "arena", "argue", "arm", "armed",
   "armor", "army", "around", "arrange", "arrest", "arrive", "arrow", "art", "artefact", "artist",
   "artwork", "ask", "aspect", "assault", "asset", "assist", "assume", "asthma", "athlete",
   "atom", "attack", "attend", "attitude", "attract", "auction"]

/-- A concrete initialized and synchronized wallet holding ten LMT, used to
instantiate the general theorems. -/
def wInit : Wallet :=
  { walletPath := "path"
    mainAddress := "LMTADDR"
    balances := [("LMT", 10)]
    transactions := []
    isInitialized := true
    isSynchronized := true }

/-- A concrete uninitialized wallet, as built by the constructor when no wallet
file exists. -/
def wUninit : Wallet := freshWallet "path"

/-- A concrete transaction already in the CONFIRMED status. -/
def tConfirmed : Transaction :=
  { id := "TXC"
    fromAddress := "A"
    toAddress := "B"
    amount := 1
    tokenSymbol := "LMT"
    timestamp := 0
    status := TransactionStatus.confirmed
    signature := "" }

/-- A concrete unsigned pending transaction. -/
def tPlain : Transaction :=
  { id := "TXID"
    fromAddress := "A"
    toAddress := "B"
    amount := 1
    tokenSymbol := "LMT"
    timestamp := 0
    status := TransactionStatus.pending
    signature := "" }

/-- A transaction with the same id as tPlain but a different recipient, amount
and timestamp. -/
def tAltered : Transaction :=
  { id := "TXID"
    fromAddress := "A"
    toAddress := "C"
    amount := 2
    tokenSymbol := "LMT"
    timestamp := 9
    status := TransactionStatus.pending
    signature := "" }

/-- A transaction carrying a signature that no signing operation produced for
it. -/
def tForged : Transaction :=
  { id := "TXF"
    fromAddress := "A"
    toAddress := "B"
    amount := 1
    tokenSymbol := "LMT"
    timestamp := 0
    status := TransactionStatus.pending
    signature := "SIGNATURE_FORGED" }

/-- A wallet whose only token symbol contains a colon, which collides with the
field separator of the persisted BALANCE lines. -/
def wColonToken : Wallet :=
  { walletPath := "path"
    mainAddress := "A"
    balances := [("A:B", 5)]
    transactions := []
    isInitialized := true
    isSynchronized := true }

/-- A sync engine state whose wallet has already processed blocks up to height
one hundred. -/
def syncAt100 : SyncState :=
  { initialSyncState "LMTADDR" "EP" with currentBlockHeight := 100 }

theorem splitAtChar_length {c : Char} :
    ∀ {cs a b : List Char}, splitAtChar c cs = some (a, b) → a.length + b.length + 1 = cs.length := by
  intro cs
  induction cs with
  | nil => intro a b h; simp [splitAtChar] at h
  | cons x rest ih =>
    intro a b h
    rw [splitAtChar] at h
    by_cases hx : x = c
    · rw [if_pos hx] at h
      simp only [Option.some.injEq, Prod.mk.injEq] at h
      obtain ⟨ha, hb⟩ := h
      subst ha; subst hb
      simp
    · rw [if_neg hx] at h
      cases hs : splitAtChar c rest with
      | none => rw [hs] at h; simp at h
      | some p =>
        obtain ⟨a', b'⟩ := p
        rw [hs] at h
        simp only [Option.some.injEq, Prod.mk.injEq] at h
        obtain ⟨ha, hb⟩ := h
        subst ha; subst hb
        have := ih hs
        simp only [List.length_cons]
        omega

theorem getlineM_rest_lt {cs l r : List Char} (h : getlineM cs = some (l, r)) :
    r.length < cs.length := by
  cases cs with
  | nil => simp [getlineM] at h
  | cons x t =>
    rw [getlineM] at h
    cases hs : splitAtChar '\n' (x :: t) with
    | none =>
      rw [hs] at h
      simp only [Option.some.injEq, Prod.mk.injEq] at h
      obtain ⟨h1, h2⟩ := h
      subst h2
      simp
    | some p =>
      obtain ⟨a, b⟩ := p
      rw [hs] at h
      simp only [Option.some.injEq, Prod.mk.injEq] at h
      obtain ⟨h1, h2⟩ := h
      subst h1; subst h2
      have := splitAtChar_length hs
      omega

theorem splitAtChar_append_cons {c : Char} :
    ∀ {l : List Char}, c ∉ l → ∀ rest : List Char, splitAtChar c (l ++ c :: rest) = some (l, rest) := by
  intro l
  induction l with
  | nil => intro _ rest; simp [splitAtChar]
  | cons x xs ih =>
    intro hmem rest
    have hx : x ≠ c := by
      intro hxc; exact hmem (hxc ▸ List.mem_cons_self x xs)
    have hxs : c ∉ xs := fun hc => hmem (List.mem_cons_of_mem x hc)
    rw [List.cons_append, splitAtChar, if_neg hx, ih hxs rest]

theorem getlineM_append {l : List Char} (hl : '\n' ∉ l) (rest : List Char) :
    getlineM (l ++ '\n' :: rest) = some (l, rest) := by
  cases hc : l ++ '\n' :: rest with
  | nil => simp at hc
  | cons x t =>
    rw [getlineM, ← hc, splitAtChar_append_cons hl rest]

theorem mapFind_mapSet (m : List (String × ℚ)) (k : String) (v : ℚ) (j : String) :
    mapFind (mapSet m k v) j = if j = k then some v else mapFind m j := by
  induction m with
  | nil =>
    by_cases hj : j = k
    · simp [mapSet, mapFind, hj]
    · simp [mapSet, mapFind, hj]
  | cons p rest ih =>
    obtain ⟨k', v'⟩ := p
    rw [mapSet]
    by_cases hlt : k < k'
    · rw [if_pos hlt]
      simp only [mapFind]
    · rw [if_neg hlt]
      by_cases heq : k = k'
      · rw [if_pos heq]
        subst heq
        by_cases hj : j = k
        · simp [mapFind, hj]
        · simp [mapFind, hj]
      · rw [if_neg heq]
        by_cases hj' : j = k'
        · have hjk : j ≠ k := by
            rw [hj']; exact fun h => heq h.symm
          have hk'k : ¬k' = k := fun h => heq h.symm
          simp [mapFind, hj', hjk, hk'k]
        · by_cases hj : j = k
          · subst hj
            simp [mapFind, hj', ih, heq]
          · simp [mapFind, hj', ih, hj]

theorem mapFind_eq_none_of_not_mem {m : List (String × ℚ)} {j : String}
    (h : j ∉ m.map Prod.fst) : mapFind m j = none := by
  induction m with
  | nil => rfl
  | cons p rest ih =>
    obtain ⟨k, v⟩ := p
    have hj : j ≠ k := by
      intro he; exact h (by simp [he])
    have hrest : j ∉ rest.map Prod.fst := fun hc => h (by simp [hc])
    simp [mapFind, hj, ih hrest]

theorem mapFind_foldl_mapSet :
    ∀ (bs : List (String × ℚ)) (m : List (String × ℚ)), (bs.map Prod.fst).Nodup →
      ∀ j, mapFind (bs.foldl (fun acc p => mapSet acc p.1 p.2) m) j =
        match mapFind bs j with
        | some v => some v
        | none => mapFind m j := by
  intro bs
  induction bs with
  | nil => intro m _ j; simp [mapFind]
  | cons p tl ih =>
    intro m hnd j
    obtain ⟨k, v⟩ := p
    have hk : k ∉ tl.map Prod.fst := by
      simp only [List.map_cons, List.nodup_cons] at hnd
      exact hnd.1
    have hndtl : (tl.map Prod.fst).Nodup := by
      simp only [List.map_cons, List.nodup_cons] at hnd
      exact hnd.2
    rw [List.foldl_cons, ih (mapSet m k v) hndtl j]
    by_cases hj : j = k
    · subst hj
      rw [mapFind_eq_none_of_not_mem hk]
      simp [mapFind, mapFind_mapSet]
    · rw [show mapFind ((k, v) :: tl) j = mapFind tl j by simp [mapFind, hj]]
      cases mapFind tl j with
      | some u => simp
      | none => simp [mapFind_mapSet, hj]

theorem balanceLines_cons_shape (printA : ℚ → String) (t : String) (v : ℚ)
    (tl : List (String × ℚ)) :
    balanceLines printA ((t, v) :: tl) =
      ("BALANCE:".toList ++ (t.toList ++ ':' :: (printA v).toList)) ++
        '\n' :: balanceLines printA tl := by
  simp [balanceLines]

theorem processLinesAux_balanceLines (printA : ℚ → String) (parseA : String → Option ℚ) :
    ∀ (bs : List (String × ℚ)) (fuel : Nat) (w : Wallet),
      (balanceLines printA bs).length < fuel →
      (∀ p ∈ bs, parseA (printA p.2) = some p.2) →
      (∀ p ∈ bs, ':' ∉ p.1.toList) →
      (∀ p ∈ bs, '\n' ∉ p.1.toList) →
      (∀ p ∈ bs, '\n' ∉ (printA p.2).toList) →
      processLinesAux parseA fuel w (balanceLines printA bs) =
        (true, bs.foldl (fun acc p => { acc with balances := mapSet acc.balances p.1 p.2 }) w) := by
  intro bs
  induction bs with
  | nil =>
    intro fuel w hfuel _ _ _ _
    obtain ⟨f, rfl⟩ : ∃ f, fuel = f + 1 := ⟨fuel - 1, by omega⟩
    simp [balanceLines, processLinesAux, getlineM]
  | cons p tl ih =>
    intro fuel w hfuel hrt htc htn hap
    obtain ⟨t, v⟩ := p
    obtain ⟨f, rfl⟩ : ∃ f, fuel = f + 1 := ⟨fuel - 1, by omega⟩
    have hmem : (t, v) ∈ (t, v) :: tl := List.mem_cons_self _ _
    have hline : '\n' ∉ "BALANCE:".toList ++ (t.toList ++ ':' :: (printA v).toList) := by
      intro hin
      rw [List.mem_append, List.mem_append] at hin
      rcases hin with h | h | h
      · revert h; decide
      · exact htn _ hmem h
      · rcases List.mem_cons.mp h with h | h
        · exact absurd h (by decide)
        · exact hap _ hmem h
    have hget :
        getlineM (balanceLines printA ((t, v) :: tl)) =
          some ("BALANCE:".toList ++ (t.toList ++ ':' :: (printA v).toList),
            balanceLines printA tl) := by
      rw [balanceLines_cons_shape]
      exact getlineM_append hline _
    have htake :
        ("BALANCE:".toList ++ (t.toList ++ ':' :: (printA v).toList)).take 8 =
          "BALANCE:".toList :=
      List.take_left' (by decide)
    have hdrop :
        ("BALANCE:".toList ++ (t.toList ++ ':' :: (printA v).toList)).drop 8 =
          t.toList ++ ':' :: (printA v).toList :=
      List.drop_left' (by decide)
    have hsplit :
        splitAtChar ':' (t.toList ++ ':' :: (printA v).toList) =
          some (t.toList, (printA v).toList) :=
      splitAtChar_append_cons (htc _ hmem) _
    rw [processLinesAux, hget]
    simp only [htake, hdrop]
    rw [if_neg (by decide), if_pos (by decide), hsplit]
    have hParse : parseA (String.mk (printA v).toList) = some v := by
      rw [show String.mk (printA v).toList = printA v from rfl]
      exact hrt _ hmem
    simp only [hParse]
    rw [show String.mk t.toList = t from rfl]
    have hfuel' : (balanceLines printA tl).length < f := by
      rw [balanceLines_cons_shape] at hfuel
      simp only [List.length_append, List.length_cons] at hfuel
      omega
    rw [ih f _ hfuel' (fun q hq => hrt q (List.mem_cons_of_mem _ hq))
      (fun q hq => htc q (List.mem_cons_of_mem _ hq))
      (fun q hq => htn q (List.mem_cons_of_mem _ hq))
      (fun q hq => hap q (List.mem_cons_of_mem _ hq))]
    rw [List.foldl_cons]

theorem foldl_balances_mainAddress :
    ∀ (bs : List (String × ℚ)) (w : Wallet),
      (bs.foldl (fun acc p => { acc with balances := mapSet acc.balances p.1 p.2 }) w).mainAddress =
        w.mainAddress := by
  intro bs
  induction bs with
  | nil => intro w; rfl
  | cons p tl ih => intro w; rw [List.foldl_cons, ih]

theorem foldl_balances_eq :
    ∀ (bs : List (String × ℚ)) (w : Wallet),
      (bs.foldl (fun acc p => { acc with balances := mapSet acc.balances p.1 p.2 }) w).balances =
        bs.foldl (fun m p => mapSet m p.1 p.2) w.balances := by
  intro bs
  induction bs with
  | nil => intro w; rfl
  | cons p tl ih => intro w; rw [List.foldl_cons, List.foldl_cons, ih]

end Lumina

namespace Lumina

/-- C10 (amended form): for every wallet whose token symbols contain no colon
and no newline, whose address contains no newline, whose rendered amounts
contain no newline and parse back to the same value, and whose balance map has
no duplicate token, saving and then loading from the same path reproduces the
address and the whole balance mapping. -/
theorem claimC10_save_load_roundtrip
    (printA : ℚ → String) (parseA : String → Option ℚ) (w : Wallet) (path : String)
    (hrt : ∀ p ∈ w.balances, parseA (printA p.2) = some p.2)
    (htc : ∀ p ∈ w.balances, ':' ∉ p.1.toList)
    (htn : ∀ p ∈ w.balances, '\n' ∉ p.1.toList)
    (hap : ∀ p ∈ w.balances, '\n' ∉ (printA p.2).toList)
    (haddr : '\n' ∉ w.mainAddress.toList)
    (hnd : (w.balances.map Prod.fst).Nodup) :
    (loadWallet parseA (freshWallet path) (saveContent printA w)).1 = true ∧
    (loadWallet parseA (freshWallet path) (saveContent printA w)).2.mainAddress =
      w.mainAddress ∧
    ∀ tok, getBalance (loadWallet parseA (freshWallet path) (saveContent printA w)).2 tok =
      getBalance w tok := by
  have hhead :
      getlineM (saveContent printA w) =
        some ("LUMINA_WALLET_DATA".toList,
          "ADDRESS:".toList ++ w.mainAddress.toList ++ '\n' :: balanceLines printA w.balances) := by
    rw [saveContent]
    exact getlineM_append (by decide) _
  have haline : '\n' ∉ "ADDRESS:".toList ++ w.mainAddress.toList := by
    intro hin
    rcases List.mem_append.mp hin with h | h
    · revert h; decide
    · exact haddr h
  have hgetaddr :
      getlineM ("ADDRESS:".toList ++ w.mainAddress.toList ++ '\n' :: balanceLines printA w.balances) =
        some ("ADDRESS:".toList ++ w.mainAddress.toList, balanceLines printA w.balances) :=
    getlineM_append haline _
  have htake :
      ("ADDRESS:".toList ++ w.mainAddress.toList).take 8 = "ADDRESS:".toList :=
    List.take_left' (by decide)
  have hdrop :
      ("ADDRESS:".toList ++ w.mainAddress.toList).drop 8 = w.mainAddress.toList :=
    List.drop_left' (by decide)
  have hloaded :
      loadWallet parseA (freshWallet path) (saveContent printA w) =
        (true,
          w.balances.foldl (fun acc p => { acc with balances := mapSet acc.balances p.1 p.2 })
            { freshWallet path with mainAddress := w.mainAddress }) := by
    simp only [loadWallet, hhead]
    rw [if_pos (by trivial)]
    simp only [processLines]
    rw [processLinesAux, hgetaddr]
    simp only [htake, hdrop]
    rw [if_pos (by trivial)]
    rw [show String.mk w.mainAddress.toList = w.mainAddress from rfl]
    have hlen :
        (balanceLines printA w.balances).length <
          ("ADDRESS:".toList ++ w.mainAddress.toList ++ '\n' ::
            balanceLines printA w.balances).length := by
      simp only [List.length_append, List.length_cons]
      omega
    exact processLinesAux_balanceLines printA parseA w.balances _ _ hlen hrt htc htn hap
  rw [hloaded]
  refine ⟨rfl, foldl_balances_mainAddress _ _, ?_⟩
  intro tok
  rw [getBalance, getBalance, foldl_balances_eq,
    mapFind_foldl_mapSet w.balances _ hnd tok]
  cases mapFind w.balances tok with
  | none => rfl
  | some v => rfl

/-- C10 counterexample: the claim asserts the round trip for every initialized
wallet state, but a token symbol containing a colon collides with the BALANCE
field separator, so loading fails (std stod throws on the text after the first
colon) and the loaded mapping loses the token. -/
theorem claimC10_counterexample :
    (loadWallet parseAmountInt (freshWallet "path") (saveContent printAmountInt wColonToken)).1 =
      false ∧
    getBalance
      (loadWallet parseAmountInt (freshWallet "path")
        (saveContent printAmountInt wColonToken)).2 "A:B" ≠
      getBalance wColonToken "A:B" := by decide

/-- C10 witness: the round trip instantiated on a concrete wallet holding ten
LMT, with the integer rendering of amounts. -/
theorem claimC10_witness :
    (loadWallet parseAmountInt (freshWallet "path") (saveContent printAmountInt wInit)).1 = true ∧
    (loadWallet parseAmountInt (freshWallet "path")
      (saveContent printAmountInt wInit)).2.mainAddress = wInit.mainAddress ∧
    getBalance
      (loadWallet parseAmountInt (freshWallet "path")
        (saveContent printAmountInt wInit)).2 "LMT" = getBalance wInit "LMT" := by
  have h := claimC10_save_load_roundtrip printAmountInt parseAmountInt wInit "path"
    (by decide) (by decide) (by decide) (by decide) (by decide) (by decide)
  exact ⟨h.1, h.2.1, h.2.2 "LMT"⟩

/-- C1 counterexample: the claim asserts that transfer with amount ≤ 0 fails
with ValidationError leaving balances and history unchanged; the source never
validates the amount, so transferring -5 LMT from a balance of 10 succeeds,
raises the balance to 15, and appends a transaction. -/
theorem claimC1_counterexample :
    (transfer wInit "B" (-5) "LMT" "tx1" 0).1 = TransferResult.success ∧
    getBalance (transfer wInit "B" (-5) "LMT" "tx1" 0).2 "LMT" = 15 ∧
    (transfer wInit "B" (-5) "LMT" "tx1" 0).2.transactions ≠ wInit.transactions := by
  refine ⟨by decide, ?_, by decide⟩
  norm_num [transfer, wInit, getBalance, mapFind, mapSet]

/-- C1 (amended): transfer performs no validation of the amount: for an
initialized wallet and any amount ≤ 0, it fails (with InsufficientBalance,
leaving the wallet unchanged) exactly when the balance is below the amount, and
otherwise succeeds, subtracting the non-positive amount from the balance and
appending one transaction. -/
theorem claimC1_transfer_skips_amount_validation
    (w : Wallet) (toAddress tokenSymbol txId : String) (amount : ℚ) (timestamp : Int)
    (hinit : w.isInitialized = true) (hamt : amount ≤ 0) :
    (getBalance w tokenSymbol < amount →
      transfer w toAddress amount tokenSymbol txId timestamp =
        (TransferResult.insufficientBalance, w)) ∧
    (amount ≤ getBalance w tokenSymbol →
      (transfer w toAddress amount tokenSymbol txId timestamp).1 = TransferResult.success ∧
      getBalance (transfer w toAddress amount tokenSymbol txId timestamp).2 tokenSymbol =
        getBalance w tokenSymbol - amount ∧
      (transfer w toAddress amount tokenSymbol txId timestamp).2.transactions =
        w.transactions ++
          [Transaction.create txId w.mainAddress toAddress amount tokenSymbol timestamp]) := by
  constructor
  · intro hlt
    simp only [transfer, hinit]
    rw [if_neg (by decide), if_pos hlt]
  · intro hle
    have hnlt : ¬getBalance w tokenSymbol < amount := not_lt.mpr hle
    simp only [transfer, hinit]
    rw [if_neg (by decide), if_neg hnlt]
    refine ⟨rfl, ?_, rfl⟩
    simp [getBalance, mapFind_mapSet]

/-- C1 witness: the amended claim instantiated at amount -5 against a balance
of ten. -/
theorem claimC1_witness :
    (transfer wInit "B" (-5) "LMT" "txw" 0).1 = TransferResult.success ∧
    getBalance (transfer wInit "B" (-5) "LMT" "txw" 0).2 "LMT" =
      getBalance wInit "LMT" - (-5) ∧
    (transfer wInit "B" (-5) "LMT" "txw" 0).2.transactions =
      wInit.transactions ++
        [Transaction.create "txw" wInit.mainAddress "B" (-5) "LMT" 0] :=
  (claimC1_transfer_skips_amount_validation wInit "B" "LMT" "txw" (-5) 0 (by decide)
    (by norm_num)).2 (by rw [show getBalance wInit "LMT" = 10 from by decide]; norm_num)

/-- C2: for an initialized wallet and a positive amount within the balance,
transfer succeeds, the balance of the token decreases by exactly the amount,
and exactly one new pending transaction is appended; in this sequential
embedding the debit and the append are a single state transition. -/
theorem claimC2_transfer_success_debits_and_appends
    (w : Wallet) (toAddress tokenSymbol txId : String) (amount : ℚ) (timestamp : Int)
    (hinit : w.isInitialized = true) (hpos : 0 < amount)
    (hle : amount ≤ getBalance w tokenSymbol) :
    (transfer w toAddress amount tokenSymbol txId timestamp).1 = TransferResult.success ∧
    getBalance (transfer w toAddress amount tokenSymbol txId timestamp).2 tokenSymbol =
      getBalance w tokenSymbol - amount ∧
    (transfer w toAddress amount tokenSymbol txId timestamp).2.transactions =
      w.transactions ++
        [Transaction.create txId w.mainAddress toAddress amount tokenSymbol timestamp] ∧
    (Transaction.create txId w.mainAddress toAddress amount tokenSymbol timestamp).status =
      TransactionStatus.pending := by
  have hnlt : ¬getBalance w tokenSymbol < amount := not_lt.mpr hle
  simp only [transfer, hinit]
  rw [if_neg (by decide), if_neg hnlt]
  refine ⟨rfl, ?_, rfl, rfl⟩
  simp [getBalance, mapFind_mapSet]

/-- C2 witness: transferring five LMT from a balance of ten. -/
theorem claimC2_witness :
    (transfer wInit "B" 5 "LMT" "txw2" 0).1 = TransferResult.success ∧
    getBalance (transfer wInit "B" 5 "LMT" "txw2" 0).2 "LMT" =
      getBalance wInit "LMT" - 5 ∧
    (transfer wInit "B" 5 "LMT" "txw2" 0).2.transactions =
      wInit.transactions ++
        [Transaction.create "txw2" wInit.mainAddress "B" 5 "LMT" 0] ∧
    (Transaction.create "txw2" wInit.mainAddress "B" 5 "LMT" 0).status =
      TransactionStatus.pending :=
  claimC2_transfer_success_debits_and_appends wInit "B" "LMT" "txw2" 5 0 (by decide)
    (by norm_num) (by rw [show getBalance wInit "LMT" = 10 from by decide]; norm_num)

/-- C3: for an initialized wallet and an amount above the balance, transfer
fails with InsufficientBalance and returns the wallet unchanged: both the
balance mapping and the transaction history are exactly as before. -/
theorem claimC3_transfer_insufficient_balance_unchanged
    (w : Wallet) (toAddress tokenSymbol txId : String) (amount : ℚ) (timestamp : Int)
    (hinit : w.isInitialized = true) (hgt : getBalance w tokenSymbol < amount) :
    transfer w toAddress amount tokenSymbol txId timestamp =
      (TransferResult.insufficientBalance, w) ∧
    (transfer w toAddress amount tokenSymbol txId timestamp).2.balances = w.balances ∧
    (transfer w toAddress amount tokenSymbol txId timestamp).2.transactions =
      w.transactions := by
  have h : transfer w toAddress amount tokenSymbol txId timestamp =
      (TransferResult.insufficientBalance, w) := by
    simp only [transfer, hinit]
    rw [if_neg (by decide), if_pos hgt]
  exact ⟨h, by rw [h], by rw [h]⟩

/-- C3 witness: transferring fifty LMT from a balance of ten fails and changes
nothing. -/
theorem claimC3_witness :
    transfer wInit "B" 50 "LMT" "txw3" 0 = (TransferResult.insufficientBalance, wInit) ∧
    (transfer wInit "B" 50 "LMT" "txw3" 0).2.balances = wInit.balances ∧
    (transfer wInit "B" 50 "LMT" "txw3" 0).2.transactions = wInit.transactions :=
  claimC3_transfer_insufficient_balance_unchanged wInit "B" "LMT" "txw3" 50 0 (by decide)
    (by rw [show getBalance wInit "LMT" = 10 from by decide]; norm_num)

/-- C4 counterexample: the claim asserts that getSeedPhrase with a wrong
password fails with AuthenticationError and never returns seed material; the
source never stores or checks any password, so for an initialized wallet every
password yields the seed phrase. -/
theorem claimC4_counterexample :
    getSeedPhrase wInit "wrong-password" = fixedSeedPhrase ∧ fixedSeedPhrase ≠ "" := by decide

/-- C4 (amended): getSeedPhrase ignores its password argument entirely: on an
initialized wallet it returns the hard-coded seed phrase for every password,
and on an uninitialized wallet it fails with NotInitialized (returning the
empty string). -/
theorem claimC4_get_seed_phrase_ignores_password (w : Wallet) (password : String) :
    (w.isInitialized = true → getSeedPhrase w password = fixedSeedPhrase) ∧
    (w.isInitialized = false → getSeedPhrase w password = "") := by
  constructor <;> intro h <;> simp [getSeedPhrase, h]

/-- C4 witness: the amended claim at a concrete initialized and a concrete
uninitialized wallet. -/
theorem claimC4_witness :
    getSeedPhrase wInit "any-password" = fixedSeedPhrase ∧
    getSeedPhrase wUninit "any-password" = "" :=
  ⟨(claimC4_get_seed_phrase_ignores_password wInit "any-password").1 (by decide),
   (claimC4_get_seed_phrase_ignores_password wUninit "any-password").2 (by decide)⟩

/-- C5 counterexample: the claim asserts that a phrase whose words are not all
in the dictionary fails with ValidationError and leaves the wallet
uninitialized; the dictionary check is an unimplemented TODO, so twelve copies
of a word outside the dictionary are accepted and the wallet is initialized. -/
theorem claimC5_counterexample :
    "zz" ∈ splitWords "zz zz zz zz zz zz zz zz zz zz zz zz" ∧
    "zz" ∉ seedWords ∧
    (recoverFromSeed wUninit "zz zz zz zz zz zz zz zz zz zz zz zz").1 =
      RecoverResult.success ∧
    (recoverFromSeed wUninit "zz zz zz zz zz zz zz zz zz zz zz zz").2.isInitialized =
      true := by decide

/-- C5 (amended): recoverFromSeed on an uninitialized wallet validates only the
word count: a phrase that does not split into exactly twelve words fails with
ValidationError and leaves the wallet unchanged, and every twelve-word phrase,
dictionary membership unchecked, succeeds and initializes the wallet. -/
theorem claimC5_recover_checks_only_word_count (w : Wallet) (phrase : String)
    (huninit : w.isInitialized = false) :
    ((splitWords phrase).length ≠ 12 →
      recoverFromSeed w phrase = (RecoverResult.invalidSeedPhrase, w)) ∧
    ((splitWords phrase).length = 12 →
      (recoverFromSeed w phrase).1 = RecoverResult.success ∧
      (recoverFromSeed w phrase).2.isInitialized = true) := by
  constructor <;> intro h <;> simp [recoverFromSeed, huninit, h]

/-- C5 witness: a three-word phrase fails and leaves the wallet unchanged. -/
theorem claimC5_witness :
    recoverFromSeed wUninit "only two words" = (RecoverResult.invalidSeedPhrase, wUninit) :=
  (claimC5_recover_checks_only_word_count wUninit "only two words" (by decide)).1 (by decide)

/-- C6 counterexample: the claim asserts that Confirmed is terminal and that
signing a Confirmed transaction fails with ValidationError; setStatus performs
no guard and sign always succeeds, so a Confirmed transaction can be moved back
to Pending and signed. -/
theorem claimC6_counterexample :
    (Transaction.setStatus tConfirmed TransactionStatus.pending).status =
      TransactionStatus.pending ∧
    (Transaction.sign tConfirmed "anykey").1 = true := by decide

/-- C6 (amended): no status transition is guarded: setStatus installs any given
status whatever the current one, and sign succeeds on every transaction,
leaving the status unchanged. -/
theorem claimC6_no_status_transition_guard (t : Transaction) (s : TransactionStatus)
    (k : String) :
    (Transaction.setStatus t s).status = s ∧
    (Transaction.sign t k).1 = true ∧
    ((Transaction.sign t k).2).status = t.status :=
  ⟨rfl, rfl, rfl⟩

/-- C7 counterexample: the claim asserts the signature binds all transaction
fields and the signer's key, and that verification recomputes and compares it;
in the source the signature depends only on the transaction id, so two
transactions sharing an id but differing in recipient, amount, timestamp and
signing key receive identical signatures, and a fabricated signature with the
fixed prefix verifies. -/
theorem claimC7_counterexample :
    (Transaction.sign tPlain "key1").2.signature =
      (Transaction.sign tAltered "key2").2.signature ∧
    Transaction.verifySignature tForged = true := by decide

/-- C7 (amended): sign writes the string SIGNATURE_ followed by the transaction
id, a value independent of the signing key and of every field but the id;
verifySignature merely checks that the stored signature is non-empty and starts
with SIGNATURE_, returning false on an unsigned transaction. -/
theorem claimC7_signature_depends_only_on_id (t : Transaction) (k k' : String) :
    (Transaction.sign t k).2.signature = "SIGNATURE_" ++ t.id ∧
    (Transaction.sign t k).2.signature = (Transaction.sign t k').2.signature ∧
    Transaction.verifySignature (Transaction.sign t k).2 = true ∧
    (t.signature = "" → Transaction.verifySignature t = false) := by
  refine ⟨rfl, rfl, ?_, ?_⟩
  · have h1 : ("SIGNATURE_" ++ t.id).toList = "SIGNATURE_".toList ++ t.id.toList := rfl
    simp [Transaction.verifySignature, Transaction.sign, h1,
      List.take_left' (show ("SIGNATURE_".toList).length = 10 by decide)]
  · intro h
    simp [Transaction.verifySignature, h]

/-- C7 witness: the amended claim at a concrete unsigned pending
transaction. -/
theorem claimC7_witness :
    (Transaction.sign tPlain "key1").2.signature = "SIGNATURE_" ++ tPlain.id ∧
    Transaction.verifySignature (Transaction.sign tPlain "key1").2 = true ∧
    Transaction.verifySignature tPlain = false :=
  ⟨(claimC7_signature_depends_only_on_id tPlain "key1" "key2").1,
   (claimC7_signature_depends_only_on_id tPlain "key1" "key2").2.2.1,
   (claimC7_signature_depends_only_on_id tPlain "key1" "key2").2.2.2 rfl⟩

theorem startSync250_events :
    (startSync (initialSyncState "LMTADDR" "EP") true 250).2.2.1 =
      [((2 : ℚ)/5, "Processed blocks up to 100"), ((4 : ℚ)/5, "Processed blocks up to 200"),
        (1, "Processed blocks up to 250"), (1, "Synchronization completed")] := by
  simp [startSync, simulateSync, simulateSyncLoop, processBlocks, updateProgress,
    initialSyncState, batchSize]
  norm_num
  all_goals decide

/-- C8 (amended): with fetched height 250 and batch size 100, the callback is
invoked with cumulative heights 100, 200, 250 and progress 0.4, 0.8, 1.0 in
that order, followed by one further completion invocation at progress 1.0, and
the run ends with status Synced. -/
theorem claimC8_sync_callback_trace :
    (startSync (initialSyncState "LMTADDR" "EP") true 250).2.2.1 =
      [((2 : ℚ)/5, "Processed blocks up to 100"), ((4 : ℚ)/5, "Processed blocks up to 200"),
        (1, "Processed blocks up to 250"), (1, "Synchronization completed")] ∧
    (startSync (initialSyncState "LMTADDR" "EP") true 250).2.1.status = SyncStatus.synced := by
  refine ⟨startSync250_events, ?_⟩
  simp [startSync, simulateSync, simulateSyncLoop, processBlocks, updateProgress,
    initialSyncState, batchSize]

/-- C8 counterexample: the claim asserts exactly three invocations with no
others; the run makes a fourth invocation, reporting completion at progress
1.0. -/
theorem claimC8_counterexample :
    (startSync (initialSyncState "LMTADDR" "EP") true 250).2.2.1 ≠
      [((2 : ℚ)/5, "Processed blocks up to 100"), ((4 : ℚ)/5, "Processed blocks up to 200"),
        (1, "Processed blocks up to 250")] := by
  rw [startSync250_events]
  intro h
  have hlen := congrArg List.length h
  simp at hlen

theorem processBlocks_fst_isSyncing (s : SyncState) (a b : Nat) :
    (processBlocks s a b).1.isSyncing = s.isSyncing := rfl

theorem processBlocks_fst_latest (s : SyncState) (a b : Nat) :
    (processBlocks s a b).1.latestBlockHeight = s.latestBlockHeight := rfl

theorem processBlocks_fst_current (s : SyncState) (a b : Nat) :
    (processBlocks s a b).1.currentBlockHeight = b := rfl

theorem simulateSyncLoop_no_iteration {s : SyncState} {height : Nat}
    (h : ¬height < s.latestBlockHeight) (fuel : Nat) :
    simulateSyncLoop fuel s height = (s, [], []) := by
  cases fuel with
  | zero => rfl
  | succ f => rw [simulateSyncLoop, if_neg h]

theorem simulateSyncLoop_completes :
    ∀ (fuel : Nat) (s : SyncState) (height : Nat),
      s.isSyncing = true → height < s.latestBlockHeight →
      s.latestBlockHeight ≤ height + fuel →
      (simulateSyncLoop fuel s height).1.currentBlockHeight = s.latestBlockHeight ∧
      (simulateSyncLoop fuel s height).1.latestBlockHeight = s.latestBlockHeight ∧
      (simulateSyncLoop fuel s height).1.isSyncing = true := by
  intro fuel
  induction fuel with
  | zero => intro s height hsy hlt hle; omega
  | succ f ih =>
    intro s height hsy hlt hle
    have hb : batchSize = 100 := rfl
    rw [simulateSyncLoop, if_pos hlt]
    simp only [processBlocks_fst_isSyncing, hsy]
    rw [if_neg (show ¬(true = false) by decide)]
    by_cases h2 : height + batchSize < s.latestBlockHeight
    · obtain ⟨ih1, ih2, ih3⟩ :=
        ih (processBlocks s height (min (height + batchSize) s.latestBlockHeight)).1
          (height + batchSize)
          (by rw [processBlocks_fst_isSyncing]; exact hsy)
          (by rw [processBlocks_fst_latest]; exact h2)
          (by rw [processBlocks_fst_latest]; omega)
      refine ⟨?_, ?_, ?_⟩
      · rw [ih1, processBlocks_fst_latest]
      · rw [ih2, processBlocks_fst_latest]
      · exact ih3
    · rw [simulateSyncLoop_no_iteration (by rw [processBlocks_fst_latest]; exact h2) f]
      refine ⟨?_, ?_, ?_⟩
      · rw [processBlocks_fst_current]
        exact Nat.min_eq_right (Nat.le_of_not_lt h2)
      · rw [processBlocks_fst_latest]
      · rw [processBlocks_fst_isSyncing]
        exact hsy

theorem simulateSync_trace (s : SyncState) :
    (simulateSync s).2.2 =
      (simulateSyncLoop s.latestBlockHeight { s with currentBlockHeight := 0 } 0).2.2 := by
  simp only [simulateSync]
  split <;> rfl

theorem simulateSyncLoop_head (fuel : Nat) (s : SyncState) (hsy : s.isSyncing = true)
    (hpos : 0 < s.latestBlockHeight) (hfuel : 0 < fuel) :
    (simulateSyncLoop fuel s 0).2.2.head? = some (0, min batchSize s.latestBlockHeight) := by
  obtain ⟨f, rfl⟩ : ∃ f, fuel = f + 1 := ⟨fuel - 1, by omega⟩
  rw [simulateSyncLoop, if_pos hpos]
  simp only [processBlocks_fst_isSyncing, hsy]
  simp [Nat.zero_add]

theorem simulateSync_current_reaches_latest (s : SyncState) (hsy : s.isSyncing = true)
    (hpos : 0 < s.latestBlockHeight) :
    (simulateSync s).1.currentBlockHeight = s.latestBlockHeight := by
  have h0sy : ({ s with currentBlockHeight := 0 } : SyncState).isSyncing = true := hsy
  have hc :=
    simulateSyncLoop_completes s.latestBlockHeight { s with currentBlockHeight := 0 } 0 h0sy
      hpos (by simp)
  simp only [simulateSync]
  simp only [hc.1, hc.2.1, hc.2.2]
  simp [updateProgress]
  exact hc.1

/-- C9 (amended): startSync ignores the wallet's current processed height
entirely: its result is identical to the result from current height zero, the
first processed batch always begins at height zero, and processing ends at the
fetched latest height. -/
theorem claimC9_sync_restarts_from_zero (s : SyncState) (cb : Bool) (L : Nat)
    (hns : s.isSyncing = false) (hL : 0 < L) :
    startSync s cb L = startSync { s with currentBlockHeight := 0 } cb L ∧
    ((startSync s cb L).2.2.2).head? = some (0, min batchSize L) ∧
    (startSync s cb L).2.1.currentBlockHeight = L := by
  obtain ⟨wa, ne, st, pr, lat, cur, isS, hc⟩ := s
  have hisS : isS = false := hns
  subst hisS
  refine ⟨by cases cb <;> rfl, ?_, ?_⟩
  · cases cb
    · have e : (startSync (SyncState.mk wa ne st pr lat cur false hc) false L).2.2.2 =
          (simulateSync (SyncState.mk wa ne SyncStatus.syncing pr L cur true hc)).2.2 := rfl
      rw [e, simulateSync_trace]
      exact simulateSyncLoop_head _ _ rfl hL hL
    · have e : (startSync (SyncState.mk wa ne st pr lat cur false hc) true L).2.2.2 =
          (simulateSync (SyncState.mk wa ne SyncStatus.syncing pr L cur true true)).2.2 := rfl
      rw [e, simulateSync_trace]
      exact simulateSyncLoop_head _ _ rfl hL hL
  · cases cb
    · have e : (startSync (SyncState.mk wa ne st pr lat cur false hc) false L).2.1 =
          (simulateSync (SyncState.mk wa ne SyncStatus.syncing pr L cur true hc)).1 := rfl
      rw [e]
      exact simulateSync_current_reaches_latest _ rfl hL
    · have e : (startSync (SyncState.mk wa ne st pr lat cur false hc) true L).2.1 =
          (simulateSync (SyncState.mk wa ne SyncStatus.syncing pr L cur true true)).1 := rfl
      rw [e]
      exact simulateSync_current_reaches_latest _ rfl hL

/-- C9 witness: the amended claim on a sync state whose wallet has already
processed up to height one hundred, against fetched latest height 250. -/
theorem claimC9_witness :
    startSync syncAt100 true 250 =
      startSync { syncAt100 with currentBlockHeight := 0 } true 250 ∧
    ((startSync syncAt100 true 250).2.2.2).head? = some (0, min batchSize 250) ∧
    (startSync syncAt100 true 250).2.1.currentBlockHeight = 250 :=
  claimC9_sync_restarts_from_zero syncAt100 true 250 rfl (by decide)

/-- C9 counterexample: the claim asserts that batches begin at the wallet's
current height (one hundred here); the processed batch trace instead starts at
zero, so the first batch is (0, 100), not a batch beginning at one hundred. -/
theorem claimC9_counterexample :
    (startSync syncAt100 true 250).2.2.2 = [(0, 100), (100, 200), (200, 250)] ∧
    ((startSync syncAt100 true 250).2.2.2).head? ≠ some (100, 200) := by
  have h : (startSync syncAt100 true 250).2.2.2 = [(0, 100), (100, 200), (200, 250)] := by
    simp [startSync, simulateSync, simulateSyncLoop, processBlocks, updateProgress,
      initialSyncState, syncAt100, batchSize]
  refine ⟨h, ?_⟩
  rw [h]
  decide

end Lumina
